import Mathlib

/-!
# Verification of the DSL workflow interpreter (`dsl2/workflow.go`)

Shallow embedding of the interpreter core: dynamic values, the evaluator
(`evalValue`, `isTruthy`, `evalCond`, `deepEqualNumberAware`), the `While`
loop, the `Parallel` join/merge, and the `Map` dispatch/collect/merge phases.

Modelling conventions:
* Go `map[string]any` bindings are association lists (`Bindings`); Go map
  assignment is `insertB` (overwrite-or-append).  Go's nondeterministic map
  iteration order becomes the list order of the association list.
* Go `float64` is modelled by `Flt`: a finite rational, NaN, or an infinity.
  IEEE `==` is `Flt.feq` (NaN unequal to everything, including itself).
  The `int64 → float64` conversion is modelled exactly (no rounding above
  2^53); none of the properties proved here depend on rounding.
* Go's `int` and `int64` are collapsed into a single `Val.int` carrying an
  `Int`: every code path under verification treats the two alike.
* Concurrent completion is modelled by an explicit completion schedule: the
  branch/iteration outcomes arrive as a list in completion order.
-/

namespace DSL2

/-- Model of a Go `float64` value: finite (as an exact rational), NaN, or an
infinity.  `+0.0`/`-0.0` are collapsed into `finite 0` (IEEE `==` equates
them, and `reflect.DeepEqual` compares floats with `==`). -/
inductive Flt where
  | finite (q : ℚ)
  | nan
  | posInf
  | negInf
deriving DecidableEq, Repr

/-- IEEE `==` on modelled floats: NaN compares unequal to everything,
including itself. -/
def Flt.feq : Flt → Flt → Bool
  | .finite a, .finite b => a = b
  | .posInf, .posInf => true
  | .negInf, .negInf => true
  | _, _ => false

/-- Dynamic value (`any` in the Go source) as stored in bindings: nil, bool,
string, integer (Go `int`/`int64`), float (`float64`), or a slice (`[]any`).
-/
inductive Val where
  | nil
  | bool (b : Bool)
  | str (s : String)
  | int (n : ℤ)
  | float (f : Flt)
  | list (xs : List Val)

/-- `toFloat` from the source: numeric values (`int`, `int64`, `float64`)
convert to float; everything else is not numeric. -/
def toFloat : Val → Option Flt
  | .int n => some (.finite (n : ℚ))
  | .float f => some f
  | _ => none

mutual
/-- `reflect.DeepEqual` on modelled values: structural equality, with floats
compared by IEEE `==` (so NaN is deeply-unequal to itself, also inside a
container), and distinct type tags unequal. -/
def deepEqual : Val → Val → Bool
  | .nil, .nil => true
  | .bool a, .bool b => a = b
  | .str a, .str b => a = b
  | .int a, .int b => a = b
  | .float a, .float b => a.feq b
  | .list xs, .list ys => deepEqualList xs ys
  | _, _ => false

/-- Elementwise `reflect.DeepEqual` on slices. -/
def deepEqualList : List Val → List Val → Bool
  | [], [] => true
  | x :: xs, y :: ys => deepEqual x y && deepEqualList xs ys
  | _, _ => false
end

/-- `deepEqualNumberAware` from the source: if both operands are numeric,
coerce to float and compare with `==` except that two NaNs compare equal;
otherwise fall back to `reflect.DeepEqual`. -/
def deepEqualNumberAware (a b : Val) : Bool :=
  match toFloat a, toFloat b with
  | some af, some bf => (af = .nan && bf = .nan) || af.feq bf
  | _, _ => deepEqual a b

/-- `isTruthy` from the source: bool identity; string non-emptiness; integer
non-zero; float non-zero and not NaN; slice non-emptiness; nil is falsy. -/
def isTruthy : Val → Bool
  | .bool b => b
  | .str s => s ≠ ""
  | .int n => n ≠ 0
  | .float f => !f.feq (.finite 0) && f ≠ .nan
  | .list xs => xs.length > 0
  | .nil => false

/-- Bindings (`map[string]any`): an association list; Go's map iteration
order is modelled by list order. -/
abbrev Bindings := List (String × Val)

/-- Go map lookup `bindings[k]`. -/
def lookupB (b : Bindings) (k : String) : Option Val :=
  (b.find? (fun p => p.1 = k)).map (·.2)

/-- Go map assignment `bindings[k] = v`: overwrite in place if the key is
present, otherwise append. -/
def insertB (b : Bindings) (k : String) (v : Val) : Bindings :=
  if (b.find? (fun p => p.1 = k)).isSome then
    b.map (fun p => if p.1 = k then (k, v) else p)
  else
    b ++ [(k, v)]

/-- Error taxonomy of the interpreter (the Go source uses `fmt.Errorf`
strings; we keep the kind and the data the message carries).  `external`
stands for an error returned by a branch/body/activity through the
substrate (including substrate cancellation errors). -/
inductive Err where
  | unboundRef (k : String)
  | emptyValue
  | emptyCondition
  | condEval (e : Err)
  | whileCondEval (e : Err)
  | maxItersExceeded (n : ℤ)
  | parallelWriteConflict (k : String)
  | mapWriteConflict (k : String)
  | mapItemsNotFound (k : String)
  | mapItemsNotSlice (k : String)
  | external (tag : ℕ)
deriving DecidableEq, Repr

/-- The `Value` AST node (`ref` / `str` / `int` / `float` / `bool`).  The Go
struct dispatches on the first set field in this order; `empty` is the
all-unset struct. -/
inductive VExpr where
  | ref (name : String)
  | str (s : String)
  | int (n : ℤ)
  | float (f : Flt)
  | bool (b : Bool)
  | empty
deriving Repr

/-- `evalValue` from the source: a `ref` looks up the binding (missing key
errors), a literal returns itself, the empty value errors. -/
def evalValue (v : VExpr) (b : Bindings) : Except Err Val :=
  match v with
  | .ref name =>
    match lookupB b name with
    | some val => .ok val
    | none => .error (.unboundRef name)
  | .str s => .ok (.str s)
  | .int n => .ok (.int n)
  | .float f => .ok (.float f)
  | .bool bv => .ok (.bool bv)
  | .empty => .error .emptyValue

/-- The `Cond` AST node.  The Go struct dispatches on the first set field in
the order `Not`, `All`, `Any`, `Truthy`, `Eq`, `Ne`; constructor order
mirrors that, and `empty` is the all-unset struct.  (In the source an `all:`
or `any:` with an empty list falls through as if unset; `evalCond` below
reproduces that.) -/
inductive Cond where
  | not (c : Cond)
  | all (cs : List Cond)
  | any (cs : List Cond)
  | truthy (v : VExpr)
  | eq (l r : VExpr)
  | ne (l r : VExpr)
  | empty

mutual
/-- `evalCond` from the source.  Composites first: `Not` negates (errors
pass through), `All` stops at the first false or error, `Any` iterates ALL
sub-conditions accumulating `anyMatch` and returns the first error even if a
true was already seen.  Then the atoms `Truthy`, `Eq`, `Ne` (number-aware
equality).  An empty condition (including `all: []` / `any: []`) errors. -/
def evalCond (c : Cond) (b : Bindings) : Except Err Bool :=
  match c with
  | .not sub =>
    match evalCond sub b with
    | .ok ok => .ok (!ok)
    | .error e => .error e
  | .all cs =>
    match cs with
    | [] => .error .emptyCondition
    | _ :: _ => evalCondAll cs b
  | .any cs =>
    match cs with
    | [] => .error .emptyCondition
    | _ :: _ => evalCondAny cs b false
  | .truthy v =>
    match evalValue v b with
    | .ok x => .ok (isTruthy x)
    | .error e => .error e
  | .eq l r =>
    match evalValue l b with
    | .error e => .error e
    | .ok lv =>
      match evalValue r b with
      | .error e => .error e
      | .ok rv => .ok (deepEqualNumberAware lv rv)
  | .ne l r =>
    match evalValue l b with
    | .error e => .error e
    | .ok lv =>
      match evalValue r b with
      | .error e => .error e
      | .ok rv => .ok (!deepEqualNumberAware lv rv)
  | .empty => .error .emptyCondition

/-- The `All` loop: return at the first error or first false, else true. -/
def evalCondAll (cs : List Cond) (b : Bindings) : Except Err Bool :=
  match cs with
  | [] => .ok true
  | sub :: rest =>
    match evalCond sub b with
    | .error e => .error e
    | .ok false => .ok false
    | .ok true => evalCondAll rest b

/-- The `Any` loop with its `anyMatch` accumulator: every sub-condition is
evaluated; the first error aborts (returning `false`), otherwise the
accumulated disjunction is returned. -/
def evalCondAny (cs : List Cond) (b : Bindings) (anyMatch : Bool) :
    Except Err Bool :=
  match cs with
  | [] => .ok anyMatch
  | sub :: rest =>
    match evalCond sub b with
    | .error e => .error e
    | .ok ok => evalCondAny rest b (anyMatch || ok)
end

/-! ## Parallel join and merge (`Parallel.execute`, workflow.go lines 243-317) -/

/-- One entry of the `results` slice of `Parallel.execute`: on branch error
the clone pointer is `nil` (`none`) and the error is kept; on success the
mutated clone is kept.  The list of `MergeResult`s is in completion order
(the order the selector observed the branch futures). -/
structure MergeResult where
  localB : Option Bindings
  err : Option Err

/-- The `firstErr` scan of `Parallel.execute`: the error of the
earliest-completing failing branch (first non-`nil` error in completion
order). -/
def firstErrOf (results : List MergeResult) : Option Err :=
  results.findSome? (·.err)

/-- The inner merge loop shared by `Parallel.execute` (lines 303-313) and
`Map.execute` (lines 484-497): fold the clone's entries into the parent
bindings.  A key `k` satisfying `skip` is ignored (`Map` only; `Parallel`
passes a never-true `skip`).  Otherwise, if `k` is present in the parent and
the two values are NOT `reflect.DeepEqual`, stop with the conflict error
naming `k` — the entries merged so far remain in the parent (the Go map is
mutated in place).  Returns the (possibly partially) merged parent and the
error, if any. -/
def mergeEntries (skip : String → Bool) (mkErr : String → Err) :
    Bindings → List (String × Val) → Bindings × Option Err
  | b, [] => (b, none)
  | b, (k, v) :: rest =>
    if skip k then
      mergeEntries skip mkErr b rest
    else
      match lookupB b k with
      | some old =>
        if deepEqual old v then
          mergeEntries skip mkErr (insertB b k v) rest
        else
          (b, some (mkErr k))
      | none => mergeEntries skip mkErr (insertB b k v) rest

/-- The merge phase of `Parallel.execute` (lines 301-313): merge each
successful branch clone (branches that failed carry a `nil` clone and are
skipped) into the parent, in completion order, stopping at the first
conflict. -/
def parallelMergeResults : Bindings → List MergeResult → Bindings × Option Err
  | b, [] => (b, none)
  | b, r :: rest =>
    match r.localB with
    | none => parallelMergeResults b rest
    | some localB =>
      match mergeEntries (fun _ => false) Err.parallelWriteConflict b localB with
      | (b', none) => parallelMergeResults b' rest
      | (b', some e) => (b', some e)

/-- The join of `Parallel.execute` after all branches completed (lines
288-316): if any branch failed, return the earliest-completing failure and
perform NO merge (the parent bindings are untouched); otherwise merge all
branch clones.  The returned pair is (parent bindings after the call,
returned error). -/
def parallelJoin (b : Bindings) (results : List MergeResult) :
    Bindings × Option Err :=
  match firstErrOf results with
  | some e => (b, some e)
  | none => parallelMergeResults b results

/-! ## While (`While.execute`, workflow.go lines 544-568) -/

/-- Result of a fuel-instrumented run: normal return, error return, or the
fuel ran out before the run settled (the Go loop is unbounded when
`MaxIters = 0`). -/
inductive RunRes where
  | ok (b : Bindings)
  | err (e : Err)
  | outOfFuel

/-- `While.execute`: `iter` starts at 0; each round evaluates the condition
(errors wrapped and returned), exits with `ok` on false, fails with
`ErrMaxItersExceeded` when `MaxIters > 0` and `iter` has reached it (before
the body runs), runs the body (modelled as an arbitrary bindings
transformer, which is what the recursive executor provides; errors abort the
loop), then — `_ = workflow.Sleep(...)` — performs the sleep whose error is
DISCARDED, and repeats with `iter+1`.  `sleepErr n` is the substrate's
answer to the `n`-th sleep call. -/
def whileLoop (cond : Cond) (body : Bindings → Except Err Bindings)
    (maxIters sleepSeconds : ℤ) (sleepErr : ℕ → Option Err) :
    ℕ → ℕ → Bindings → RunRes
  | 0, _, _ => .outOfFuel
  | fuel + 1, iter, b =>
    match evalCond cond b with
    | .error e => .err (.whileCondEval e)
    | .ok false => .ok b
    | .ok true =>
      if 0 < maxIters ∧ maxIters ≤ (iter : ℤ) then
        .err (.maxItersExceeded maxIters)
      else
        match body b with
        | .error e => .err e
        | .ok b' =>
          let _discarded := if 0 < sleepSeconds then sleepErr iter else none
          whileLoop cond body maxIters sleepSeconds sleepErr fuel (iter + 1) b'

/-! ## Map (`Map.execute`, workflow.go lines 321-513) -/

/-- The effective concurrency window (lines 339-346): `Map.Concurrency` if
positive, else `Workflow.Concurrency` if positive, else 1. -/
def effectiveWindow (mapConc wfConc : ℤ) : ℤ :=
  if mapConc ≤ 0 then (if 0 < wfConc then wfConc else 1) else mapConc

/-- One entry of the `allResults` slice: the iteration's clone after the
body ran, its error, and the iteration index. -/
structure BranchRes where
  localB : Bindings
  err : Option Err
  idx : ℕ

/-- The mutable state of the `Map` dispatch loop: `next` item to launch,
`inflight` running count, `completed` count, `allResults` in completion
order, and the indices of iterations launched but not yet observed by the
selector (`pending`, in launch order). -/
structure MapSt where
  next : ℕ
  inflight : ℤ
  completed : ℕ
  allResults : List BranchRes
  pending : List ℕ

/-- `emit` (lines 367-383) as seen by the scheduler state: the iteration's
future is registered (`pending`) and `inflight` incremented.  The clone's
final contents and the error arrive at completion time through the
`localAfter`/`outcome` oracles of the scheduler. -/
def emitSt (st : MapSt) : MapSt :=
  { st with pending := st.pending ++ [st.next],
            inflight := st.inflight + 1,
            next := st.next + 1 }

/-- The priming loop (lines 386-389): `for next < len(items) && inflight <
window { emit(next); next++ }`. -/
def primeLoop (N : ℕ) (w : ℤ) (st : MapSt) : MapSt :=
  if st.next < N ∧ st.inflight < w then primeLoop N w (emitSt st)
  else st
termination_by N - st.next
decreasing_by
  simp only [emitSt]
  omega

/-- One `selector.Select(ctx)`: if no launched future is still pending, the
selector blocks forever (`none`); otherwise the completion schedule `sched`
picks which pending future fires (position `sched completed % |pending|`),
its callback appends a `BranchRes` built from the outcome oracles and
increments `completed`. -/
def selectStep (outcome : ℕ → Option Err) (localAfter : ℕ → Bindings)
    (sched : ℕ → ℕ) (st : MapSt) : Option MapSt :=
  match st.pending with
  | [] => none
  | _ :: _ =>
    let pos := sched st.completed % st.pending.length
    let i := st.pending.getD pos 0
    some { st with
           pending := st.pending.eraseIdx pos,
           allResults := st.allResults ++ [⟨localAfter i, outcome i, i⟩],
           completed := st.completed + 1 }

/-- Result of the dispatch loop: normal exit (`completed` reached `N`), the
in-loop fail-fast branch fired (`cancel()` called and the error returned,
lines 405-410), the selector blocked with nothing pending (deadlock), or
fuel exhaustion. -/
inductive DispatchRes where
  | done (st : MapSt)
  | cancelled (e : Err)
  | blocked
  | outOfFuel

/-- Whether the dispatch fired the fail-fast `cancel()` path. -/
def DispatchRes.isCancelled : DispatchRes → Bool
  | .cancelled _ => true
  | _ => false

/-- The dispatch loop (lines 394-419): `for completed < totalExpected {
selector.Select(ctx); if completed < len(allResults) { lastResult :=
allResults[last]; inflight--; if lastResult.err != nil && FailFast {
cancel(); return err }; if next < len(items) && inflight < window { emit }
} }`.  The post-select block is guarded by `completed < len(allResults)`,
exactly as in the source. -/
def dispatchLoop (N : ℕ) (w : ℤ) (failFast : Bool) (outcome : ℕ → Option Err)
    (localAfter : ℕ → Bindings) (sched : ℕ → ℕ) :
    ℕ → MapSt → DispatchRes
  | fuel₀, st =>
    if N ≤ st.completed then .done st
    else
      match fuel₀ with
      | 0 => .outOfFuel
      | fuel + 1 =>
        match selectStep outcome localAfter sched st with
        | none => .blocked
        | some st' =>
          if st'.completed < st'.allResults.length then
            match st'.allResults.getLast? with
            | none =>
              -- unreachable under the guard; recurse unchanged for totality
              dispatchLoop N w failFast outcome localAfter sched fuel st'
            | some lastResult =>
              let st₂ := { st' with inflight := st'.inflight - 1 }
              match lastResult.err, failFast with
              | some e, true => .cancelled e
              | _, _ =>
                let st₃ :=
                  if st₂.next < N ∧ st₂.inflight < w then emitSt st₂ else st₂
                dispatchLoop N w failFast outcome localAfter sched fuel st₃
          else
            dispatchLoop N w failFast outcome localAfter sched fuel st'

/-- The whole scheduling phase of `Map.execute`: prime the window from the
empty state, then run the dispatch loop. -/
def mapDispatch (N : ℕ) (w : ℤ) (failFast : Bool) (outcome : ℕ → Option Err)
    (localAfter : ℕ → Bindings) (sched : ℕ → ℕ) (fuel : ℕ) : DispatchRes :=
  dispatchLoop N w failFast outcome localAfter sched fuel
    (primeLoop N w ⟨0, 0, 0, [], []⟩)

/-! ### Map result collection and merge (lines 423-513) -/

/-- Whether a dynamic value is the Go interface `nil` (the filter of line
503 keeps `v != nil`). -/
def Val.isNil : Val → Bool
  | .nil => true
  | _ => false

/-- The `CollectVar_<idx>` key: `fmt.Sprintf("%s_%d", m.CollectVar, r.idx)`.
-/
def collectIdxKey (collectVar : String) (idx : ℕ) : String :=
  collectVar ++ "_" ++ toString idx

/-- Rule 3 of the collection priority (lines 455-466): scan the clone (in
map-iteration order, modelled by list order) for the first key that is not
`ItemVar`, not `CollectVar`, does not start with `CollectVar + "_"`, and was
absent from the outer bindings at fan-out; collect its value. -/
def findNewKey (outer : Bindings) (itemVar collectVar : String) :
    List (String × Val) → Option (String × Val)
  | [] => none
  | (k, v) :: rest =>
    if k ≠ itemVar ∧ k ≠ collectVar ∧
        ¬ (collectVar ++ "_").isPrefixOf k ∧ (lookupB outer k).isNone then
      some (k, v)
    else
      findNewKey outer itemVar collectVar rest

/-- The per-iteration collection choice (lines 442-467), in strict priority
order: `clone[CollectVar]`, then `clone[CollectVar_<idx>]`, then the first
newly-introduced key (rule 3).  Returns the consumed key and the collected
value, or `none` when nothing was found. -/
def chooseCollect (outer : Bindings) (itemVar collectVar : String)
    (r : BranchRes) : Option (String × Val) :=
  match lookupB r.localB collectVar with
  | some v => some (collectVar, v)
  | none =>
    match lookupB r.localB (collectIdxKey collectVar r.idx) with
    | some v => some (collectIdxKey collectVar r.idx, v)
    | none => findNewKey outer itemVar collectVar r.localB

/-- Accumulator of the result-processing loop (lines 423-477):
`successResults`, the `collected` slots (`make([]any, len(items))`, i.e.
`nil`-initialised, written at `r.idx`), `firstErr`, and the set of consumed
keys (`collectVars`). -/
structure CollectOut where
  successResults : List BranchRes
  collected : List Val
  firstErr : Option Err
  collectVars : List String

/-- The result-processing loop (lines 431-477) over `allResults` in
completion order: failures feed `firstErr` (first one wins); successes are
appended to `successResults` and, when `CollectVar` is set, their collection
choice is written into `collected[r.idx]` (guarded by `r.idx <
len(collected)`) and the consumed key recorded. -/
def collectLoop (outer : Bindings) (itemVar collectVar : String) :
    List BranchRes → CollectOut → CollectOut
  | [], acc => acc
  | r :: rest, acc =>
    match r.err with
    | some e =>
      let acc₁ :=
        if acc.firstErr.isSome then acc else { acc with firstErr := some e }
      collectLoop outer itemVar collectVar rest acc₁
    | none =>
      let acc₁ := { acc with successResults := acc.successResults ++ [r] }
      let acc₂ :=
        if collectVar ≠ "" then
          match chooseCollect outer itemVar collectVar r with
          | some (k, v) =>
            { acc₁ with
              collected :=
                if r.idx < acc₁.collected.length then
                  acc₁.collected.set r.idx v
                else acc₁.collected,
              collectVars := acc₁.collectVars ++ [k] }
          | none => acc₁
        else acc₁
      collectLoop outer itemVar collectVar rest acc₂

/-- The skip predicate of the post-map merge (lines 486-490): skip
`ItemVar`, `CollectVar`, keys starting with `CollectVar + "_"` (only when
`CollectVar` is set), and keys consumed by the collector. -/
def mapMergeSkip (itemVar collectVar : String) (collectVars : List String)
    (k : String) : Bool :=
  k = itemVar ∨
    (collectVar ≠ "" ∧ (k = collectVar ∨ (collectVar ++ "_").isPrefixOf k)) ∨
    k ∈ collectVars

/-- The post-map merge (lines 483-497): merge each successful iteration's
clone into the parent under `mapMergeSkip`, stopping at the first conflict
(`ErrMapWriteConflict`); entries merged before the conflict remain. -/
def mapMergeResults (skip : String → Bool) :
    Bindings → List BranchRes → Bindings × Option Err
  | b, [] => (b, none)
  | b, r :: rest =>
    match mergeEntries skip Err.mapWriteConflict b r.localB with
    | (b', none) => mapMergeResults skip b' rest
    | (b', some e) => (b', some e)

/-- The value assigned to `bindings[CollectVar]` after the loop (lines
499-508): the `collected` slots with `nil`s filtered out, preserving index
order. -/
def finalCollected (collected : List Val) : Val :=
  .list (collected.filter (fun v => !v.isNil))

/-- The whole post-dispatch phase of `Map.execute` (lines 423-512), given
`allResults` in completion order: process results (collection, `firstErr`),
return `firstErr` early when `FailFast` (line 479, before any merge), merge
the successful clones, then assign the collected sequence and return
`firstErr` (which is `none` on full success).  Result: (parent bindings
after the call, returned error). -/
def mapFinish (outer : Bindings) (itemVar collectVar : String)
    (failFast : Bool) (N : ℕ) (allResults : List BranchRes) :
    Bindings × Option Err :=
  let out := collectLoop outer itemVar collectVar allResults
    ⟨[], List.replicate N .nil, none, []⟩
  if out.firstErr.isSome ∧ failFast then
    (outer, out.firstErr)
  else
    match mapMergeResults (mapMergeSkip itemVar collectVar out.collectVars)
        outer out.successResults with
    | (b', some e) => (b', some e)
    | (b', none) =>
      let b₂ :=
        if collectVar ≠ "" then
          insertB b' collectVar (finalCollected out.collected)
        else b'
      (b₂, out.firstErr)

/-! ## Auxiliary definitions used by theorem statements -/

/-- The error of an evaluator result, if any. -/
def condErr (r : Except Err Bool) : Option Err :=
  match r with
  | .error e => some e
  | .ok _ => none

/-- Whether an evaluator result is a successful `true`. -/
def condTrue (r : Except Err Bool) : Bool :=
  match r with
  | .ok ok => ok
  | .error _ => false

/-- Scenario-4 style body (spec §8): record one log entry, then approve —
used to observe the exact number of iterations the loop performs. -/
def approveBody : Bindings → Except Err Bindings := fun b =>
  match lookupB b "log" with
  | some (.list xs) =>
    .ok (insertB (insertB b "approved" (.bool true)) "log"
      (.list (xs ++ [.int 1])))
  | _ => .error (.external 9)

/-- A body that runs for exactly two iterations: it increments `n` and
keeps `go` true only while `n + 1 < 2`. -/
def twoIterBody : Bindings → Except Err Bindings := fun b =>
  match lookupB b "n" with
  | some (.int n) =>
    .ok (insertB (insertB b "go" (.bool (decide (n + 1 < 2)))) "n"
      (.int (n + 1)))
  | _ => .error (.external 9)

/-- The value an iteration writes into its collection slot, if any: only a
successful iteration writes, and only when `chooseCollect` found something.
(Used to state the collection-ordering theorem.) -/
def writeVal (outer : Bindings) (itemVar collectVar : String)
    (r : BranchRes) : Option Val :=
  match r.err with
  | some _ => none
  | none => (chooseCollect outer itemVar collectVar r).map (·.2)

mutual
/-- Whether a value holds no NaN anywhere inside it.  (A top-level NaN is
handled by `deepEqualNumberAware`'s numeric branch, but a NaN nested inside
a slice falls to `reflect.DeepEqual`, which compares floats by IEEE `==`.)
-/
def Val.nanFree : Val → Bool
  | .float f => f ≠ .nan
  | .list xs => Val.nanFreeList xs
  | _ => true

/-- `Val.nanFree` over the elements of a slice. -/
def Val.nanFreeList : List Val → Bool
  | [] => true
  | x :: xs => Val.nanFree x && Val.nanFreeList xs
end

/-! ## Helper lemmas -/

/-- IEEE `==` on modelled floats is symmetric. -/
theorem Flt.feq_symm (x y : Flt) : x.feq y = y.feq x := by
  cases x <;> cases y <;> simp [Flt.feq, eq_comm]

/-- IEEE `==` is reflexive away from NaN. -/
theorem Flt.feq_refl (x : Flt) (h : x ≠ .nan) : x.feq x = true := by
  cases x <;> simp_all [Flt.feq]

mutual
/-- `reflect.DeepEqual` is symmetric. -/
theorem deepEqual_symm (a b : Val) : deepEqual a b = deepEqual b a := by
  cases a <;> cases b <;> simp only [deepEqual] <;> try rfl
  case bool.bool x y => simp [eq_comm]
  case str.str x y => simp [eq_comm]
  case int.int x y => simp [eq_comm]
  case float.float x y => exact Flt.feq_symm x y
  case list.list xs ys => exact deepEqualList_symm xs ys

/-- Elementwise `reflect.DeepEqual` is symmetric. -/
theorem deepEqualList_symm (xs ys : List Val) :
    deepEqualList xs ys = deepEqualList ys xs := by
  cases xs <;> cases ys <;> (simp only [deepEqualList]; try rfl)
  case cons.cons x xs y ys =>
    rw [deepEqual_symm x y, deepEqualList_symm xs ys]
end

mutual
/-- `reflect.DeepEqual` is reflexive on NaN-free values. -/
theorem deepEqual_refl (a : Val) (h : a.nanFree = true) :
    deepEqual a a = true := by
  cases a with
  | float f =>
    simp only [Val.nanFree, decide_eq_true_eq] at h
    simpa [deepEqual] using Flt.feq_refl f (by simpa using h)
  | list xs =>
    simp only [Val.nanFree] at h
    simpa [deepEqual] using deepEqualList_refl xs h
  | nil => rfl
  | bool x => simp [deepEqual]
  | str s => simp [deepEqual]
  | int n => simp [deepEqual]

/-- Elementwise `reflect.DeepEqual` is reflexive on NaN-free lists. -/
theorem deepEqualList_refl (xs : List Val) (h : Val.nanFreeList xs = true) :
    deepEqualList xs xs = true := by
  cases xs with
  | nil => rfl
  | cons x xs =>
    simp only [Val.nanFreeList, Bool.and_eq_true] at h
    simp [deepEqualList, deepEqual_refl x h.1, deepEqualList_refl xs h.2]
end

/-- Finding a key after the overwrite pass of `insertB`, provided the key
occurred in the list. -/
theorem find_overwrite (rest : Bindings) (k : String) (v : Val)
    (hs : (rest.find? (fun q => q.1 = k)).isSome) :
    ((rest.map (fun p => if p.1 = k then (k, v) else p)).find?
      (fun q => q.1 = k)) = some (k, v) := by
  induction rest with
  | nil => simp at hs
  | cons p rest ih =>
    by_cases hp : p.1 = k
    · simp [List.find?_cons, hp]
    · simp only [List.find?_cons, hp, decide_eq_true_eq, if_neg] at hs ⊢
      simp only [List.map_cons, if_neg hp, List.find?_cons]
      have hd : (decide (p.1 = k)) = false := by simp [hp]
      simp only [hd] at hs ⊢
      exact ih hs

/-- Finding a key in an appended singleton when it misses on the left. -/
theorem find_append_miss (rest : Bindings) (k : String) (v : Val)
    (hs : rest.find? (fun q => q.1 = k) = none) :
    ((rest ++ [(k, v)]).find? (fun q => q.1 = k)) = some (k, v) := by
  induction rest with
  | nil => simp
  | cons p rest ih =>
    by_cases hp : p.1 = k
    · simp [List.find?_cons, hp] at hs
    · have hd : (decide (p.1 = k)) = false := by simp [hp]
      simp only [List.find?_cons, hd] at hs
      simp only [List.cons_append, List.find?_cons, hd]
      exact ih hs

/-- After a Go map assignment, looking the key up yields the assigned value.
-/
theorem lookupB_insertB_self (b : Bindings) (k : String) (v : Val) :
    lookupB (insertB b k v) k = some v := by
  by_cases hs : (b.find? (fun q => q.1 = k)).isSome
  · simp [insertB, hs, lookupB, find_overwrite b k v hs]
  · have hn : b.find? (fun q => q.1 = k) = none :=
      Option.not_isSome_iff_eq_none.mp (by simpa using hs)
    simp [insertB, hs, lookupB, find_append_miss b k v hn]

/-- `firstErrOf` finds the error of the earliest-completing failing branch:
if every branch completing before position `i` succeeded and the branch at
`i` failed with `e`, the scan yields `e`. -/
theorem firstErrOf_eq_of_first (results : List MergeResult) (i : ℕ) (e : Err)
    (hi : i < results.length)
    (hbefore : ∀ j (hj : j < results.length), j < i →
      (results.get ⟨j, hj⟩).err = none)
    (herr : (results.get ⟨i, hi⟩).err = some e) :
    firstErrOf results = some e := by
  induction results generalizing i with
  | nil => simp at hi
  | cons r rest ih =>
    cases i with
    | zero =>
      simp only [List.get] at herr
      simp [firstErrOf, List.findSome?_cons, herr]
    | succ i =>
      have h0 : r.err = none := hbefore 0 (by omega) (by omega)
      simp only [firstErrOf, List.findSome?_cons, h0]
      exact ih i (by simpa using hi)
        (fun j hj hji => hbefore (j + 1) (by simpa using hj) (by omega))
        (by simpa using herr)

/-- `deepEqualNumberAware` is symmetric on all values. -/
theorem deepEqualNumberAware_symm (a b : Val) :
    deepEqualNumberAware a b = deepEqualNumberAware b a := by
  unfold deepEqualNumberAware
  cases ha : toFloat a <;> cases hb : toFloat b
  · exact deepEqual_symm a b
  · exact deepEqual_symm a b
  · exact deepEqual_symm a b
  · case some.some af bf =>
    show ((decide (af = .nan) && decide (bf = .nan)) || af.feq bf) =
      ((decide (bf = .nan) && decide (af = .nan)) || bf.feq af)
    rw [Bool.and_comm, Flt.feq_symm]

/-- Pointwise characterisation of the `collected` slots after the
result-processing loop: slot `i` holds the write of the (unique) result
with iteration index `i` when there is one, and is otherwise untouched.
Valid for any completion order with pairwise-distinct indices in range. -/
theorem collectLoop_slots (outer : Bindings) (itemVar collectVar : String)
    (hcv : collectVar ≠ "") :
    ∀ (results : List BranchRes) (acc : CollectOut),
      (∀ r ∈ results, r.idx < acc.collected.length) →
      (results.map (fun r => r.idx)).Nodup →
      ∀ i : ℕ,
      ((collectLoop outer itemVar collectVar results acc).collected)[i]? =
        (((results.find? (fun r => decide (r.idx = i))).bind
          (writeVal outer itemVar collectVar)).or acc.collected[i]?) := by
  intro results
  induction results with
  | nil =>
    intro acc _ _ i
    simp [collectLoop]
  | cons r rest ih =>
    intro acc hlt hnd i
    have hltr : r.idx < acc.collected.length := hlt r (by simp)
    have hnd' := hnd
    rw [List.map_cons] at hnd'
    have hcons := List.nodup_cons.mp hnd'
    have hrestnone : r.idx = i →
        rest.find? (fun x => decide (x.idx = i)) = none := by
      intro hri
      apply List.find?_eq_none.mpr
      intro x hx
      simp only [decide_eq_true_eq]
      intro hxi
      exact hcons.1 (by
        rw [← hri] at hxi
        exact hxi ▸ List.mem_map_of_mem (fun r => r.idx) hx)
    cases herr : r.err with
    | some e =>
      have hstep : collectLoop outer itemVar collectVar (r :: rest) acc =
          collectLoop outer itemVar collectVar rest
            (if acc.firstErr.isSome then acc
             else { acc with firstErr := some e }) := by
        simp [collectLoop, herr]
      have hcoll : (if acc.firstErr.isSome then acc
          else { acc with firstErr := some e }).collected = acc.collected := by
        by_cases h : acc.firstErr.isSome <;> simp [h]
      rw [hstep, ih _ (by rw [hcoll]; exact fun x hx => hlt x (by simp [hx]))
        hcons.2 i, hcoll]
      have hw : writeVal outer itemVar collectVar r = none := by
        simp [writeVal, herr]
      by_cases hri : r.idx = i
      · rw [hrestnone hri]
        simp [List.find?_cons, hri, hw]
      · simp [List.find?_cons, hri]
    | none =>
      cases hch : chooseCollect outer itemVar collectVar r with
      | none =>
        have hstep : collectLoop outer itemVar collectVar (r :: rest) acc =
            collectLoop outer itemVar collectVar rest
              { acc with successResults := acc.successResults ++ [r] } := by
          simp [collectLoop, herr, hcv, hch]
        rw [hstep, ih { acc with successResults := acc.successResults ++ [r] }
          (fun x hx => hlt x (by simp [hx])) hcons.2 i]
        have hw : writeVal outer itemVar collectVar r = none := by
          simp [writeVal, herr, hch]
        by_cases hri : r.idx = i
        · rw [hrestnone hri]
          simp [List.find?_cons, hri, hw]
        · simp [List.find?_cons, hri]
      | some kv =>
        obtain ⟨k, v⟩ := kv
        have hstep : collectLoop outer itemVar collectVar (r :: rest) acc =
            collectLoop outer itemVar collectVar rest
              { acc with
                successResults := acc.successResults ++ [r],
                collected := acc.collected.set r.idx v,
                collectVars := acc.collectVars ++ [k] } := by
          simp [collectLoop, herr, hcv, hch, hltr]
        rw [hstep, ih { acc with
            successResults := acc.successResults ++ [r],
            collected := acc.collected.set r.idx v,
            collectVars := acc.collectVars ++ [k] }
          (fun x hx => by simpa using hlt x (by simp [hx])) hcons.2 i]
        have hw : writeVal outer itemVar collectVar r = some v := by
          simp [writeVal, herr, hch]
        by_cases hri : r.idx = i
        · rw [hrestnone hri]
          subst hri
          simp [List.find?_cons, hw, List.getElem?_set_eq_of_lt v hltr]
        · have hset : (acc.collected.set r.idx v)[i]? = acc.collected[i]? :=
            List.getElem?_set_ne hri
          rw [hset]
          simp [List.find?_cons, hri]

/-- With pairwise-distinct iteration indices, `find?` on the index locates
any given member, in whatever order the results completed. -/
theorem find_by_idx_of_nodup (l : List BranchRes)
    (hnd : (l.map (fun r => r.idx)).Nodup) (r : BranchRes) (hm : r ∈ l) :
    l.find? (fun x => decide (x.idx = r.idx)) = some r := by
  induction l with
  | nil => simp at hm
  | cons a rest ih =>
    have hnd' := hnd
    rw [List.map_cons] at hnd'
    have hcons := List.nodup_cons.mp hnd'
    by_cases hai : a.idx = r.idx
    · have har : a = r := by
        cases List.mem_cons.mp hm with
        | inl h => exact h.symm
        | inr h => exact absurd (hai ▸ List.mem_map_of_mem _ h) hcons.1
      subst har
      simp [List.find?_cons]
    · have hr : r ∈ rest := by
        cases List.mem_cons.mp hm with
        | inl h => exact absurd (h ▸ rfl) hai
        | inr h => exact h
      have hdf : (decide (a.idx = r.idx)) = false := by simp [hai]
      simp only [List.find?_cons, hdf]
      exact ih hcons.2 hr

/-! ## Claim theorems -/

/-- C7: for a `Map` with `CollectVar` set whose results arrive in ANY
completion order (`results` is the completion-ordered list; indices are the
pairwise-distinct iteration indices, all below the item count `N`), the
`collected` slots after the processing loop are exactly the per-index
writes laid out in iteration-index order (first conjunct); the sequence
assigned to `bindings[CollectVar]` is that index-ordered sequence with the
unset (`nil`) slots filtered out, preserving index order (second conjunct);
and any reordering of the completions (`results₂`, a permutation) produces
the very same slots — the output is ordered by iteration index, never by
completion time (third conjunct). -/
theorem map_collect_ordered_by_index
    (outer : Bindings) (itemVar collectVar : String) (N : ℕ)
    (results results₂ : List BranchRes)
    (hcv : collectVar ≠ "")
    (hlt : ∀ r ∈ results, r.idx < N)
    (hnd : (results.map (fun r => r.idx)).Nodup)
    (hperm : results₂.Perm results) :
    (collectLoop outer itemVar collectVar results
        ⟨[], List.replicate N .nil, none, []⟩).collected =
      (List.range N).map (fun i =>
        ((results.find? (fun r => decide (r.idx = i))).bind
          (writeVal outer itemVar collectVar)).getD .nil) ∧
    finalCollected (collectLoop outer itemVar collectVar results
        ⟨[], List.replicate N .nil, none, []⟩).collected =
      .list (((List.range N).map (fun i =>
        ((results.find? (fun r => decide (r.idx = i))).bind
          (writeVal outer itemVar collectVar)).getD .nil)).filter
        (fun v => !v.isNil)) ∧
    (collectLoop outer itemVar collectVar results₂
        ⟨[], List.replicate N .nil, none, []⟩).collected =
      (collectLoop outer itemVar collectVar results
        ⟨[], List.replicate N .nil, none, []⟩).collected := by
  have hmain : ∀ rs : List BranchRes, (∀ r ∈ rs, r.idx < N) →
      (rs.map (fun r => r.idx)).Nodup →
      (collectLoop outer itemVar collectVar rs
          ⟨[], List.replicate N .nil, none, []⟩).collected =
        (List.range N).map (fun i =>
          ((rs.find? (fun r => decide (r.idx = i))).bind
            (writeVal outer itemVar collectVar)).getD .nil) := by
    intro rs hlt hnd
    apply List.ext_getElem?_iff.mpr
    intro i
    rw [collectLoop_slots outer itemVar collectVar hcv rs
      ⟨[], List.replicate N .nil, none, []⟩ (by simpa using hlt) hnd i]
    by_cases hi : i < N
    · have hrange : (List.range N)[i]? = some i := by
        simp [List.getElem?_range, hi]
      rw [List.getElem?_map, hrange]
      simp only [List.getElem?_replicate, if_pos hi, Option.map_some]
      cases hb : (rs.find? (fun r => decide (r.idx = i))).bind
          (writeVal outer itemVar collectVar) with
      | some v => simp [hb]
      | none => simp [hb]
    · have hf : rs.find? (fun r => decide (r.idx = i)) = none := by
        apply List.find?_eq_none.mpr
        intro x hx
        simp only [decide_eq_true_eq]
        intro hxi
        exact hi (hxi ▸ hlt x hx)
      have hmapn : ((List.range N).map (fun i =>
          ((rs.find? (fun r => decide (r.idx = i))).bind
            (writeVal outer itemVar collectVar)).getD .nil))[i]? = none := by
        apply List.getElem?_eq_none
        simpa using hi
      rw [hmapn, hf]
      simp [List.getElem?_replicate, hi]
  have hlt₂ : ∀ r ∈ results₂, r.idx < N :=
    fun r hr => hlt r (hperm.mem_iff.mp hr)
  have hnd₂ : (results₂.map (fun r => r.idx)).Nodup :=
    (hperm.map (fun r => r.idx)).nodup_iff.mpr hnd
  have hfind : ∀ i : ℕ,
      results₂.find? (fun r => decide (r.idx = i)) =
        results.find? (fun r => decide (r.idx = i)) := by
    intro i
    cases h : results.find? (fun r => decide (r.idx = i)) with
    | some r =>
      have hm := List.mem_of_find?_eq_some h
      have hp : r.idx = i := by simpa using List.find?_some h
      subst hp
      exact find_by_idx_of_nodup results₂ hnd₂ r (hperm.mem_iff.mpr hm)
    | none =>
      apply List.find?_eq_none.mpr
      intro x hx
      exact List.find?_eq_none.mp h x (hperm.mem_iff.mp hx)
  refine ⟨hmain results hlt hnd, ?_, ?_⟩
  · rw [hmain results hlt hnd]
    rfl
  · rw [hmain results hlt hnd, hmain results₂ hlt₂ hnd₂]
    apply List.map_congr_left
    intro i _
    rw [hfind i]

/-- Witness for C7: three iterations completing in the order 2, 0, 1, the
middle one failed, the others collecting through `clone[CollectVar]`; the
output is ordered by index (0 before 2) with the failed iteration's nil slot
filtered out, and the reversed completion order yields the same slots. -/
theorem map_collect_ordered_by_index_witness :
    (("pages" : String) ≠ "") ∧
    finalCollected (collectLoop [] "_item" "pages"
        [⟨[("pages", Val.str "c2")], none, 2⟩,
         ⟨[("pages", Val.str "c0")], none, 0⟩,
         ⟨[], some (.external 1), 1⟩]
        ⟨[], List.replicate 3 .nil, none, []⟩).collected =
      .list [Val.str "c0", Val.str "c2"] ∧
    (collectLoop [] "_item" "pages"
        [⟨[], some (.external 1), 1⟩,
         ⟨[("pages", Val.str "c0")], none, 0⟩,
         ⟨[("pages", Val.str "c2")], none, 2⟩]
        ⟨[], List.replicate 3 .nil, none, []⟩).collected =
      (collectLoop [] "_item" "pages"
        [⟨[("pages", Val.str "c2")], none, 2⟩,
         ⟨[("pages", Val.str "c0")], none, 0⟩,
         ⟨[], some (.external 1), 1⟩]
        ⟨[], List.replicate 3 .nil, none, []⟩).collected := by
  have h := map_collect_ordered_by_index [] "_item" "pages" 3
    [⟨[("pages", Val.str "c2")], none, 2⟩,
     ⟨[("pages", Val.str "c0")], none, 0⟩,
     ⟨[], some (.external 1), 1⟩]
    [⟨[], some (.external 1), 1⟩,
     ⟨[("pages", Val.str "c0")], none, 0⟩,
     ⟨[("pages", Val.str "c2")], none, 2⟩]
    (by simp) (by decide) (by decide)
    (by
      have hrev : ([⟨[("pages", Val.str "c2")], none, 2⟩,
          ⟨[("pages", Val.str "c0")], none, 0⟩,
          ⟨[], some (.external 1), 1⟩] : List BranchRes).reverse =
          [⟨[], some (.external 1), 1⟩,
           ⟨[("pages", Val.str "c0")], none, 0⟩,
           ⟨[("pages", Val.str "c2")], none, 2⟩] := rfl
      rw [← hrev]
      exact List.reverse_perm _)
  refine ⟨by simp, ?_, h.2.2⟩
  rw [h.2.1]
  rfl

/-- C8 counterexample: the slice holding a single NaN is evaluator-producible
(a bound variable's value, returned by `evalValue` on a `ref`), yet
`deepEqualNumberAware` does not relate it to itself — the claimed
reflexivity on all evaluator-producible values fails (the structural
fallback compares nested floats by IEEE `==`, under which NaN differs from
itself). -/
theorem number_aware_equality_not_reflexive_counterexample :
    deepEqualNumberAware (Val.list [.float .nan]) (Val.list [.float .nan])
      = false ∧
    evalValue (.ref "l") [("l", Val.list [.float .nan])] =
      .ok (Val.list [.float .nan]) :=
  ⟨rfl, rfl⟩

/-- C8 (amended): `deepEqualNumberAware` coerces two numeric operands (int,
int64, float64) to float and compares with IEEE `==` except that two NaNs
compare equal (first conjunct); the relation is symmetric on all values
(second conjunct); it is reflexive on every numeric operand and on every
value free of nested NaNs — but not on non-numeric values containing NaN
inside a container (third conjunct; see the counterexample); and for all
comparand pairs whose operands evaluate without error, `evalCond` of
`Eq(l,r)` returns exactly the boolean negation of `evalCond` of `Ne(l,r)`
(last two conjuncts). -/
theorem number_aware_equality_properties
    (a b c : Val) (af bf : Flt) (l r : VExpr) (env : Bindings) (lv rv : Val)
    (ha : toFloat a = some af) (hb : toFloat b = some bf)
    (hc : (toFloat c).isSome ∨ c.nanFree = true)
    (hl : evalValue l env = .ok lv) (hr : evalValue r env = .ok rv) :
    deepEqualNumberAware a b =
      ((decide (af = Flt.nan) && decide (bf = Flt.nan)) || af.feq bf) ∧
    (∀ x y : Val, deepEqualNumberAware x y = deepEqualNumberAware y x) ∧
    deepEqualNumberAware c c = true ∧
    evalCond (.eq l r) env = .ok (deepEqualNumberAware lv rv) ∧
    evalCond (.ne l r) env = .ok (!deepEqualNumberAware lv rv) := by
  refine ⟨?_, deepEqualNumberAware_symm, ?_, ?_, ?_⟩
  · simp [deepEqualNumberAware, ha, hb]
  · cases hcf : toFloat c with
    | some cf =>
      by_cases hnan : cf = Flt.nan
      · simp [deepEqualNumberAware, hcf, hnan]
      · simp [deepEqualNumberAware, hcf, Flt.feq_refl cf hnan]
    | none =>
      have hfree : c.nanFree = true := by
        rcases hc with hs | hf
        · rw [hcf] at hs; simp at hs
        · exact hf
      simp [deepEqualNumberAware, hcf, deepEqual_refl c hfree]
  · simp [evalCond, hl, hr]
  · simp [evalCond, hl, hr]

/-- Witness for C8 (amended): numeric operands int 2 and float 2.0, the
reflexivity input int 1, and the comparands of Scenario 3 (`Ref x` vs
literal int 5 over `x = 5`). -/
theorem number_aware_equality_properties_witness :
    toFloat (Val.int 2) = some (.finite 2) ∧
    toFloat (Val.float (.finite 2)) = some (.finite 2) ∧
    ((toFloat (Val.int 1)).isSome ∨ (Val.int 1).nanFree = true) ∧
    evalValue (.ref "x") [("x", Val.int 5)] = .ok (Val.int 5) ∧
    evalValue (.int 5) [("x", Val.int 5)] = .ok (Val.int 5) ∧
    evalCond (.eq (.ref "x") (.int 5)) [("x", Val.int 5)] =
      .ok (deepEqualNumberAware (Val.int 5) (Val.int 5)) :=
  ⟨rfl, rfl, Or.inl rfl, rfl, rfl,
   (number_aware_equality_properties (Val.int 2) (Val.float (.finite 2))
     (Val.int 1) (.finite 2) (.finite 2) (.ref "x") (.int 5)
     [("x", Val.int 5)] (Val.int 5) (Val.int 5) rfl rfl (Or.inl rfl) rfl
     rfl).2.2.2.1⟩

/-- C10: whenever at least one branch of a `Parallel` fails, the operator
returns the error of the earliest-completing failing branch (position `i` in
completion order, everything before it succeeded) and leaves the parent
bindings map completely unchanged — no write from any successful branch's
clone is merged. -/
theorem parallel_branch_failure_no_merge
    (b : Bindings) (results : List MergeResult) (i : ℕ) (e : Err)
    (hi : i < results.length)
    (hbefore : ∀ j (hj : j < results.length), j < i →
      (results.get ⟨j, hj⟩).err = none)
    (herr : (results.get ⟨i, hi⟩).err = some e) :
    parallelJoin b results = (b, some e) := by
  have hfe := firstErrOf_eq_of_first results i e hi hbefore herr
  simp [parallelJoin, hfe]

/-- Witness for C10: one successful branch completing first, one failing
branch completing second; the parent keeps its single binding and the
second branch's error is returned. -/
theorem parallel_branch_failure_no_merge_witness :
    1 < ([⟨some [("y", Val.int 2)], none⟩,
          ⟨none, some (.external 7)⟩] : List MergeResult).length ∧
    parallelJoin [("x", Val.int 1)]
        [⟨some [("y", Val.int 2)], none⟩, ⟨none, some (.external 7)⟩] =
      ([("x", Val.int 1)], some (.external 7)) :=
  ⟨by norm_num,
   parallel_branch_failure_no_merge [("x", Val.int 1)]
     [⟨some [("y", Val.int 2)], none⟩, ⟨none, some (.external 7)⟩] 1
     (.external 7) (by norm_num)
     (fun j hj hji => by
       have : j = 0 := by omega
       subst this; rfl)
     rfl⟩

/-- C1 counterexample: both values evaluate equal under
`deepEqualNumberAware` (integer 1 vs float 1.0), yet the parallel merge and
the post-map merge both fail with a write conflict on the key — the merges
compare with `reflect.DeepEqual`, not with the number-aware relation the
claim states. -/
theorem merge_not_number_aware_counterexample :
    deepEqualNumberAware (Val.float (.finite 1)) (Val.int 1) = true ∧
    parallelJoin [("x", Val.float (.finite 1))]
        [⟨some [("x", Val.int 1)], none⟩] =
      ([("x", Val.float (.finite 1))], some (.parallelWriteConflict "x")) ∧
    mapMergeResults (mapMergeSkip "_item" "" []) [("x", Val.float (.finite 1))]
        [⟨[("x", Val.int 1)], none, 0⟩] =
      ([("x", Val.float (.finite 1))], some (.mapWriteConflict "x")) := by
  refine ⟨rfl, rfl, rfl⟩

/-- C1 (amended): in both the `Parallel` merge and the post-map merge, when
a key `k` is already present in the parent, the two values are compared with
STRUCTURAL deep equality (`reflect.DeepEqual`: floats by IEEE `==`, distinct
type tags unequal) and the operator fails with the write-conflict error
naming `k` exactly when they are unequal under that relation; in particular
a branch publishing integer 1 into a key whose parent value is float 1.0 IS
a conflict (`deepEqual` distinguishes them although `deepEqualNumberAware`
does not). -/
theorem merge_compares_with_deep_equal
    (parent : Bindings) (k itemVar collectVar : String)
    (collectVars : List String) (old v : Val)
    (hold : lookupB parent k = some old)
    (hskip : mapMergeSkip itemVar collectVar collectVars k = false) :
    (parallelJoin parent [⟨some [(k, v)], none⟩] =
      if deepEqual old v then (insertB parent k v, none)
      else (parent, some (.parallelWriteConflict k))) ∧
    (mapMergeResults (mapMergeSkip itemVar collectVar collectVars) parent
        [⟨[(k, v)], none, 0⟩] =
      if deepEqual old v then (insertB parent k v, none)
      else (parent, some (.mapWriteConflict k))) ∧
    deepEqual (Val.float (.finite 1)) (Val.int 1) = false ∧
    deepEqualNumberAware (Val.float (.finite 1)) (Val.int 1) = true := by
  refine ⟨?_, ?_, rfl, rfl⟩
  · by_cases hde : deepEqual old v <;>
      simp [parallelJoin, firstErrOf, List.findSome?_cons,
        parallelMergeResults, mergeEntries, hold, hde]
  · by_cases hde : deepEqual old v <;>
      simp [mapMergeResults, mergeEntries, hskip, hold, hde]

/-- Witness for C1 (amended), at parent value float 1.0 and branch value
integer 1 under key x. -/
theorem merge_compares_with_deep_equal_witness :
    lookupB [("x", Val.float (.finite 1))] "x" = some (Val.float (.finite 1)) ∧
    mapMergeSkip "_item" "" [] "x" = false ∧
    deepEqualNumberAware (Val.float (.finite 1)) (Val.int 1) = true :=
  ⟨rfl, rfl,
   (merge_compares_with_deep_equal [("x", Val.float (.finite 1))] "x" "_item"
     "" [] (Val.float (.finite 1)) (Val.int 1) rfl rfl).2.2.2⟩

/-- C4 counterexample (Scenario 5): two successful branches publish `z` with
different values; the operator does fail with `ErrParallelWriteConflict`
naming `z`, but the parent bindings are NOT left unchanged: the first
branch's write of `z` was already merged when the conflict was detected, so
a partial merge remains. -/
theorem parallel_conflict_partial_merge_counterexample :
    parallelJoin [] [⟨some [("z", Val.int 1)], none⟩,
        ⟨some [("z", Val.int 2)], none⟩] =
      ([("z", Val.int 1)], some (.parallelWriteConflict "z")) ∧
    ([("z", Val.int 1)] : Bindings) ≠ ([] : Bindings) := by
  exact ⟨rfl, by simp⟩

/-- C4 (amended): when two successful branches publish the same key `k`
(absent from the parent) with values unequal under the merge's equality
(`reflect.DeepEqual`), the operator fails with `ErrParallelWriteConflict`
naming `k`, but the merge is not atomic: writes merged before the conflict
was detected remain in the parent — here the first branch's value of `k`. -/
theorem parallel_conflict_names_key_partial_merge
    (parent : Bindings) (k : String) (v₁ v₂ : Val)
    (habsent : lookupB parent k = none)
    (hne : deepEqual v₁ v₂ = false) :
    parallelJoin parent [⟨some [(k, v₁)], none⟩, ⟨some [(k, v₂)], none⟩] =
      (insertB parent k v₁, some (.parallelWriteConflict k)) := by
  have hself := lookupB_insertB_self parent k v₁
  simp [parallelJoin, firstErrOf, List.findSome?_cons, parallelMergeResults,
    mergeEntries, habsent, hself, hne]

/-- C5 counterexample: in `Any [Truthy(true), Truthy(Ref missing)]` the
first sub-condition evaluates to `true`, yet the operator still evaluates
the second one and returns its unbound-reference error — sub-conditions
after the first true one ARE evaluated and their errors propagate. -/
theorem any_error_after_true_counterexample :
    evalCond (.any [.truthy (.bool true), .truthy (.ref "missing")]) [] =
      .error (.unboundRef "missing") ∧
    evalCond (.truthy (.bool true)) [] = .ok true :=
  ⟨rfl, rfl⟩

/-- C5 (amended): `Any` evaluates ALL sub-conditions in order, with no
short-circuit on truth: the first error among all sub-conditions propagates
(even when a sub-condition before it already evaluated to true); when none
errors, the result is true iff some sub-condition evaluated to true. -/
theorem any_evaluates_all_subconditions (cs : List Cond) (b : Bindings)
    (h : cs ≠ []) :
    evalCond (.any cs) b =
      match cs.findSome? (fun c => condErr (evalCond c b)) with
      | some e => .error e
      | none => .ok (cs.any (fun c => condTrue (evalCond c b))) := by
  have hacc : ∀ (cs : List Cond) (acc : Bool),
      evalCondAny cs b acc =
        match cs.findSome? (fun c => condErr (evalCond c b)) with
        | some e => .error e
        | none => .ok (acc || cs.any (fun c => condTrue (evalCond c b))) := by
    intro cs
    induction cs with
    | nil => intro acc; simp [evalCondAny]
    | cons c rest ih =>
      intro acc
      cases hc : evalCond c b with
      | error e =>
        simp [evalCondAny, hc, List.findSome?_cons, condErr]
      | ok ok =>
        have h1 : condErr (Except.ok ok : Except Err Bool) = none := rfl
        have h2 : condTrue (Except.ok ok : Except Err Bool) = ok := rfl
        simp only [evalCondAny, hc, List.findSome?_cons, h1, List.any_cons, h2]
        rw [ih (acc || ok)]
        cases hrest : rest.findSome? (fun c => condErr (evalCond c b)) with
        | some e => simp [hrest]
        | none => simp [hrest, Bool.or_assoc]
  match cs, h with
  | c :: rest, _ =>
    show evalCondAny (c :: rest) b false = _
    rw [hacc (c :: rest) false]
    simp

/-- Witness for C5 (amended), at the two-element list of the
counterexample. -/
theorem any_evaluates_all_subconditions_witness :
    evalCond (.any [.truthy (.bool true), .truthy (.ref "missing")]) [] =
      match ([Cond.truthy (.bool true),
              Cond.truthy (.ref "missing")]).findSome?
          (fun c => condErr (evalCond c [])) with
      | some e => .error e
      | none =>
        .ok (([Cond.truthy (.bool true), Cond.truthy (.ref "missing")]).any
          (fun c => condTrue (evalCond c []))) :=
  any_evaluates_all_subconditions [.truthy (.bool true), .truthy (.ref "missing")]
    [] (by simp)

/-- C6: the `While` condition is evaluated before each iteration and the
loop exits successfully as soon as it is false (i); `ErrMaxItersExceeded`
fires exactly when `MaxIters > 0` and the counter has reached it while the
condition is still true, before the body runs — it fires under those
circumstances whatever the body is (ii), and can arise under no other
circumstances as long as the body itself never raises it (iii); body errors
abort the loop and propagate (iv); and with `MaxIters = 3` and a body that
falsifies the condition after one pass, exactly one iteration runs (one log
entry) and no error is returned (v). -/
theorem while_semantics
    (cond : Cond) (body : Bindings → Except Err Bindings)
    (maxIters sleepSeconds : ℤ) (sleepErr : ℕ → Option Err)
    (fuel iter : ℕ) (b : Bindings) (e : Err) :
    (evalCond cond b = .ok false →
      whileLoop cond body maxIters sleepSeconds sleepErr (fuel + 1) iter b =
        .ok b) ∧
    (evalCond cond b = .ok true → 0 < maxIters → maxIters ≤ (iter : ℤ) →
      whileLoop cond body maxIters sleepSeconds sleepErr (fuel + 1) iter b =
        .err (.maxItersExceeded maxIters)) ∧
    ((∀ b' n, body b' ≠ .error (.maxItersExceeded n)) →
      ∀ fuel' iter' b' n,
        whileLoop cond body maxIters sleepSeconds sleepErr fuel' iter' b' =
          .err (.maxItersExceeded n) →
        n = maxIters ∧ 0 < maxIters) ∧
    (evalCond cond b = .ok true → ¬(0 < maxIters ∧ maxIters ≤ (iter : ℤ)) →
      body b = .error e →
      whileLoop cond body maxIters sleepSeconds sleepErr (fuel + 1) iter b =
        .err e) ∧
    (whileLoop (.not (.truthy (.ref "approved"))) approveBody 3 0
        (fun _ => none) 10 0 [("approved", Val.bool false), ("log", Val.list [])] =
      .ok [("approved", Val.bool true), ("log", Val.list [.int 1])]) := by
  refine ⟨?_, ?_, ?_, ?_, rfl⟩
  · intro hc
    simp [whileLoop, hc]
  · intro hc hpos hle
    simp [whileLoop, hc, hpos, hle]
  · intro hbody fuel'
    induction fuel' with
    | zero => intro iter' b' n h; simp [whileLoop] at h
    | succ fuel' ih =>
      intro iter' b' n h
      rw [whileLoop] at h
      cases hc : evalCond cond b' with
      | error er => simp [hc] at h
      | ok ok =>
        cases ok with
        | false => simp [hc] at h
        | true =>
          simp only [hc] at h
          by_cases hm : 0 < maxIters ∧ maxIters ≤ (iter' : ℤ)
          · simp only [if_pos hm] at h
            cases h
            exact ⟨rfl, hm.1⟩
          · simp only [if_neg hm] at h
            cases hb : body b' with
            | error er =>
              simp only [hb] at h
              cases h
              exact absurd hb (hbody b' n)
            | ok b'' =>
              simp only [hb] at h
              exact ih (iter' + 1) b'' n h
  · intro hc hm hb
    simp [whileLoop, hc, hm, hb]

/-- Witness for C6, instantiating (i) at a false condition, (ii) at a
tripped bound, (iii) at a non-looping body, and (iv) at a failing body. -/
theorem while_semantics_witness :
    (evalCond (.truthy (.ref "x")) [("x", Val.bool false)] = .ok false ∧
      whileLoop (.truthy (.ref "x")) (fun b => .ok b) 3 0 (fun _ => none) 5 0
        [("x", Val.bool false)] = .ok [("x", Val.bool false)]) ∧
    (evalCond (.truthy (.ref "x")) [("x", Val.bool true)] = .ok true ∧
      whileLoop (.truthy (.ref "x")) (fun b => .ok b) 2 0 (fun _ => none) 5 2
        [("x", Val.bool true)] = .err (.maxItersExceeded 2)) ∧
    (whileLoop (.truthy (.ref "x")) (fun _ => .error (.external 3)) 0 0
        (fun _ => none) 5 0 [("x", Val.bool true)] = .err (.external 3)) :=
  ⟨⟨rfl,
    (while_semantics (.truthy (.ref "x")) (fun b => .ok b) 3 0 (fun _ => none)
      4 0 [("x", Val.bool false)] (.external 0)).1 rfl⟩,
   ⟨rfl,
    (while_semantics (.truthy (.ref "x")) (fun b => .ok b) 2 0 (fun _ => none)
      4 2 [("x", Val.bool true)] (.external 0)).2.1 rfl (by norm_num)
      (by norm_num)⟩,
   (while_semantics (.truthy (.ref "x")) (fun _ => .error (.external 3)) 0 0
      (fun _ => none) 4 0 [("x", Val.bool true)] (.external 3)).2.2.2.1 rfl
      (by norm_num) rfl⟩

/-- C9: the error returned by the substrate's sleep between `While`
iterations is discarded — the run of the loop is entirely independent of
the sleep oracle's answers (first conjunct), and even with a sleep that
always fails with a cancellation-style error a multi-iteration loop with
`SleepSeconds > 0` completes normally, re-evaluating the condition after
each failed sleep (second conjunct). -/
theorem while_sleep_error_discarded
    (cond : Cond) (body : Bindings → Except Err Bindings)
    (maxIters sleepSeconds : ℤ) (s₁ s₂ : ℕ → Option Err)
    (fuel iter : ℕ) (b : Bindings) :
    whileLoop cond body maxIters sleepSeconds s₁ fuel iter b =
      whileLoop cond body maxIters sleepSeconds s₂ fuel iter b ∧
    whileLoop (.truthy (.ref "go")) twoIterBody 0 1
        (fun _ => some (.external 99)) 10 0
        [("go", Val.bool true), ("n", Val.int 0)] =
      .ok [("go", Val.bool false), ("n", Val.int 2)] := by
  refine ⟨?_, rfl⟩
  induction fuel generalizing iter b with
  | zero => rfl
  | succ fuel ih =>
    cases hc : evalCond cond b with
    | error er => simp [whileLoop, hc]
    | ok ok =>
      cases ok with
      | false => simp [whileLoop, hc]
      | true =>
        by_cases hm : 0 < maxIters ∧ maxIters ≤ (iter : ℤ)
        · simp [whileLoop, hc, hm]
        · cases hb : body b with
          | error er => simp [whileLoop, hc, hm, hb]
          | ok b' =>
            simp only [whileLoop, hc, if_neg hm, hb]
            exact ih (iter + 1) b'

/-- A `selectStep` that fires keeps the completed count equal to the length
of `allResults` whenever it was equal before: the callback appends one
result and increments `completed` together. -/
theorem selectStep_preserves_count (outcome : ℕ → Option Err)
    (localAfter : ℕ → Bindings) (sched : ℕ → ℕ) (st st' : MapSt)
    (hinv : st.completed = st.allResults.length)
    (h : selectStep outcome localAfter sched st = some st') :
    st'.completed = st'.allResults.length := by
  cases hp : st.pending with
  | nil => simp [selectStep, hp] at h
  | cons p rest =>
    simp only [selectStep, hp] at h
    cases h
    simp [hinv]

/-- The dispatch loop never takes the in-loop fail-fast branch: the guard
`completed < len(allResults)` is false at every check, because the
selector's callback increments `completed` and appends to `allResults` in
lockstep. -/
theorem dispatchLoop_never_cancels (N : ℕ) (w : ℤ) (failFast : Bool)
    (outcome : ℕ → Option Err) (localAfter : ℕ → Bindings) (sched : ℕ → ℕ)
    (fuel : ℕ) :
    ∀ st : MapSt, st.completed = st.allResults.length →
      (dispatchLoop N w failFast outcome localAfter sched fuel st).isCancelled
        = false := by
  induction fuel with
  | zero =>
    intro st hinv
    rw [dispatchLoop]
    by_cases hN : N ≤ st.completed <;> simp [hN, DispatchRes.isCancelled]
  | succ fuel ih =>
    intro st hinv
    rw [dispatchLoop]
    by_cases hN : N ≤ st.completed
    · simp [hN, DispatchRes.isCancelled]
    · simp only [if_neg hN]
      cases hsel : selectStep outcome localAfter sched st with
      | none => simp [DispatchRes.isCancelled]
      | some st' =>
        have hinv' := selectStep_preserves_count outcome localAfter sched
          st st' hinv hsel
        have hguard : ¬ st'.completed < st'.allResults.length := by omega
        simp only [if_neg hguard]
        exact ih st' hinv'

/-- `primeLoop` never touches `completed` or `allResults`. -/
theorem primeLoop_preserves_count (N : ℕ) (w : ℤ) :
    ∀ st : MapSt, (primeLoop N w st).completed = st.completed ∧
      (primeLoop N w st).allResults = st.allResults := by
  have hstep : ∀ (k : ℕ) (st : MapSt), N - st.next ≤ k →
      (primeLoop N w st).completed = st.completed ∧
      (primeLoop N w st).allResults = st.allResults := by
    intro k
    induction k with
    | zero =>
      intro st hk
      rw [primeLoop]
      have hnot : ¬ (st.next < N ∧ st.inflight < w) := by omega
      simp [hnot]
    | succ k ih =>
      intro st hk
      rw [primeLoop]
      by_cases hc : st.next < N ∧ st.inflight < w
      · simp only [if_pos hc]
        have := ih (emitSt st) (by simp [emitSt]; omega)
        simpa [emitSt] using this
      · simp [hc]
  exact fun st => hstep (N - st.next) st le_rfl

/-- C3 (what the code actually does): the fail-fast cancellation path of
`Map.execute` (lines 405-410: fire the child cancel token and return the
error upon observing a failed iteration) is unreachable — the dispatcher
NEVER fires the cancel token during the loop, for any item count, window,
schedule, or outcomes (first conjunct).  Concretely (second and third
conjuncts): with `FailFast` set, two items, window 2 and iteration 0
failing, every iteration still runs to its natural completion (`done` with
both results recorded, nothing cancelled, `inflight` never decremented from
2), and the error is only returned by the post-loop check (line 479) after
all iterations settled, with no merge and no collection performed. -/
theorem map_failfast_cancel_path_dead :
    (∀ (N : ℕ) (w : ℤ) (failFast : Bool) (outcome : ℕ → Option Err)
      (localAfter : ℕ → Bindings) (sched : ℕ → ℕ) (fuel : ℕ),
      (mapDispatch N w failFast outcome localAfter sched fuel).isCancelled
        = false) ∧
    mapDispatch 2 2 true
        (fun i => if i = 0 then some (.external 0) else none) (fun _ => [])
        (fun _ => 0) 10 =
      .done ⟨2, 2, 2, [⟨[], some (.external 0), 0⟩, ⟨[], none, 1⟩], []⟩ ∧
    mapFinish [] "_item" "" true 2
        [⟨[], some (.external 0), 0⟩, ⟨[], none, 1⟩] =
      ([], some (.external 0)) := by
  refine ⟨?_, ?_, rfl⟩
  · intro N w failFast outcome localAfter sched fuel
    have h := primeLoop_preserves_count N w ⟨0, 0, 0, [], []⟩
    exact dispatchLoop_never_cancels N w failFast outcome localAfter sched
      fuel _ (by simp [h.1, h.2])
  · have hp : primeLoop 2 2 ⟨0, 0, 0, [], []⟩ = ⟨2, 2, 0, [], [0, 1]⟩ := by
      rw [primeLoop]; norm_num [emitSt]
      rw [primeLoop]; norm_num [emitSt]
      rw [primeLoop]; norm_num
    rw [mapDispatch, hp, dispatchLoop]
    norm_num [selectStep]
    rw [dispatchLoop]
    norm_num [selectStep, List.eraseIdx]
    rw [dispatchLoop]
    norm_num

/-- C2 (what the code actually does): with any effective window `w` smaller
than the item count — here `w = 1` from `Map.Concurrency = 1` and `N = 2` —
the dispatcher deadlocks: after the single initially-launched iteration
completes, the backfill guard `completed < len(allResults)` is false, so no
further item is ever launched and `selector.Select` blocks with no pending
future (`blocked`), for every completion schedule, every set of iteration
outcomes and any amount of fuel ≥ 2.  The claimed behaviour — launch the
next unlaunched item after each completion so that all `N` iterations
execute and `Map` terminates — does not occur. -/
theorem map_window_smaller_than_items_deadlocks
    (outcome : ℕ → Option Err) (localAfter : ℕ → Bindings) (sched : ℕ → ℕ)
    (fuel : ℕ) (hfuel : 2 ≤ fuel) :
    mapDispatch 2 (effectiveWindow 1 0) false outcome localAfter sched fuel
      = .blocked := by
  obtain ⟨f, rfl⟩ : ∃ f, fuel = f + 2 :=
    ⟨fuel - 2, by omega⟩
  have hw : effectiveWindow 1 0 = 1 := rfl
  rw [hw]
  have hp : primeLoop 2 1 ⟨0, 0, 0, [], []⟩ = ⟨1, 1, 0, [], [0]⟩ := by
    rw [primeLoop]; norm_num [emitSt]
    rw [primeLoop]; norm_num
  have h1 : selectStep outcome localAfter sched ⟨1, 1, 0, [], [0]⟩ =
      some ⟨1, 1, 1, [⟨localAfter 0, outcome 0, 0⟩], []⟩ := by
    simp [selectStep, Nat.mod_one]
  have h2 : selectStep outcome localAfter sched
      ⟨1, 1, 1, [⟨localAfter 0, outcome 0, 0⟩], []⟩ = none := by
    simp [selectStep]
  rw [mapDispatch, hp, dispatchLoop]
  norm_num [h1]
  rw [dispatchLoop]
  norm_num [h2]

/-- Witness for C2's deadlock theorem at fuel 2 and trivial oracles. -/
theorem map_window_smaller_than_items_deadlocks_witness :
    (2 : ℕ) ≤ 2 ∧
    mapDispatch 2 (effectiveWindow 1 0) false (fun _ => none) (fun _ => [])
      (fun _ => 0) 2 = .blocked :=
  ⟨le_rfl,
   map_window_smaller_than_items_deadlocks (fun _ => none) (fun _ => [])
     (fun _ => 0) 2 le_rfl⟩

/-- Witness for C4 (amended): empty parent, branch values 1 and 2 under key
z. -/
theorem parallel_conflict_names_key_partial_merge_witness :
    lookupB ([] : Bindings) "z" = none ∧
    deepEqual (Val.int 1) (Val.int 2) = false ∧
    parallelJoin [] [⟨some [("z", Val.int 1)], none⟩,
        ⟨some [("z", Val.int 2)], none⟩] =
      (insertB [] "z" (Val.int 1), some (.parallelWriteConflict "z")) :=
  ⟨rfl, rfl,
   parallel_conflict_names_key_partial_merge [] "z" (Val.int 1) (Val.int 2)
     rfl rfl⟩

end DSL2
